import Mathlib

/-!
# docker-container-log-viewer: the two endpoints of `main.go`

A shallow embedding of `containersEndpoint` and `logsEndpoint`.

* Go strings and byte slices are lists of bytes (`Names[0][1:]` drops one byte, not one
  character).
* The Docker daemon, the log stream and the websocket peer are the environment: every call
  into them takes its result from a script given as input, and every call is recorded in a
  trace of effects.
* Library routines the handlers call (`io.Copy`, `http.Error`, `url.Values.Get`,
  `json.Encoder.Encode`) are embedded from their Go sources; only the JSON encoding of a
  single string is left as a parameter.
-/

namespace LogViewer

/-! ## Strings and errors -/

/-- A Go `[]byte`. -/
abbrev Bytes := List UInt8

/-- A Go `string`: an immutable sequence of bytes. -/
abbrev GoString := List UInt8

/-- The bytes of a Go string literal (source files are UTF-8). -/
def str (s : String) : GoString := s.toUTF8.data.toList

/-- Go `error` values. The three sentinels of package `io` are compared by identity, every
other error is known by its text only. -/
inductive GoError where
  | EOF
  | ErrShortWrite
  | errInvalidWrite
  | other (msg : GoString)
deriving DecidableEq, Repr

/-- The method `err.Error()`. -/
def GoError.Error : GoError → GoString
  | .EOF => str "EOF"
  | .ErrShortWrite => str "short write"
  | .errInvalidWrite => str "invalid write result"
  | .other msg => msg

/-! ## The environment of a `/logs` session -/

/-- One call `logs.Read(buf)`: the bytes placed in the buffer and the error returned with
them. Go allows both at once. -/
structure ReadResult where
  data : Bytes
  err : Option GoError
deriving DecidableEq, Repr

/-- One call `ws.Write(msg)`: the pair `(n, err)` it returns. -/
structure WriteResult where
  n : Int
  err : Option GoError
deriving DecidableEq, Repr

/-- The write accepted the whole message: `n = len(msg)` and `err = nil`. -/
def WriteResult.succeeded (w : WriteResult) (msg : Bytes) : Prop :=
  w.n = (msg.length : Int) ∧ w.err = none

instance (w : WriteResult) (msg : Bytes) : Decidable (w.succeeded msg) := by
  unfold WriteResult.succeeded
  exact inferInstance

/-- The calls a handler makes into its collaborators, with the results they gave. -/
inductive Effect where
  /-- A call `client.NewClientWithOpts(client.FromEnv)` and its error. -/
  | newClient (err : Option GoError)
  /-- A call `cli.ContainerLogs(ctx, container, opts)` and its error. -/
  | containerLogs (container : GoString) (err : Option GoError)
  /-- A call `logs.Read(buf)` that returned. -/
  | read (data : Bytes) (err : Option GoError)
  /-- A call `logs.Read(buf)` that never returns: the stream is open and silent. -/
  | readBlocked
  /-- A call `ws.Write(msg)` and what it returned. -/
  | wsWrite (msg : Bytes) (res : WriteResult)
  /-- A call `ws.Close()`. -/
  | wsClose
  /-- A call `logs.Close()`. -/
  | logsClose
deriving DecidableEq, Repr

/-- The effect polls the Log Stream. -/
def Effect.isRead : Effect → Bool
  | .read _ _ => true
  | .readBlocked => true
  | _ => false

/-- The message of a write to the client connection. -/
def Effect.written? : Effect → Option Bytes
  | .wsWrite msg _ => some msg
  | _ => none

/-- The messages handed to `ws.Write`, in order. -/
def writtenMsgs (trace : List Effect) : List Bytes := trace.filterMap Effect.written?

/-! ## `io.Copy` -/

/-- What `io.Copy(ws, logs)` did: its effects, its two return values, whether it returned
at all, and how many `ws.Write` calls the connection has seen when it stops. -/
structure CopyResult where
  trace : List Effect
  written : Int
  err : Option GoError
  returned : Bool
  writes : Nat
deriving DecidableEq, Repr

/-- Effects that happened before the rest of the loop ran. -/
def CopyResult.after (pre : List Effect) (c : CopyResult) : CopyResult :=
  { c with trace := pre ++ c.trace }

/-- The generic loop of `io.Copy` (`copyBuffer`): read a chunk, write it if it is not empty,
stop on a write error, a short write or any read error, and report every error but `EOF`.
`src` scripts the successive results of `logs.Read`; when the script is exhausted the next
read blocks for ever. `dst i msg` is what the `i`-th call of `ws.Write` returns on `msg`. -/
def ioCopy (dst : Nat → Bytes → WriteResult) : List ReadResult → Nat → Int → CopyResult
  | [], i, written =>
    { trace := [.readBlocked], written := written, err := none, returned := false, writes := i }
  | r :: rest, i, written =>
    let rd := Effect.read r.data r.err
    if 0 < r.data.length then
      let w := dst i r.data
      let invalid : Bool := decide (w.n < 0 ∨ (r.data.length : Int) < w.n)
      let nw : Int := if invalid then 0 else w.n
      let ew : Option GoError :=
        if invalid ∧ w.err = none then some .errInvalidWrite else w.err
      let wr := Effect.wsWrite r.data w
      match ew with
      | some e =>
        { trace := [rd, wr], written := written + nw, err := some e, returned := true,
          writes := i + 1 }
      | none =>
        if (r.data.length : Int) ≠ nw then
          { trace := [rd, wr], written := written + nw, err := some .ErrShortWrite,
            returned := true, writes := i + 1 }
        else
          match r.err with
          | some er =>
            { trace := [rd, wr], written := written + nw,
              err := if er = .EOF then none else some er, returned := true, writes := i + 1 }
          | none => (ioCopy dst rest (i + 1) (written + nw)).after [rd, wr]
    else
      match r.err with
      | some er =>
        { trace := [rd], written := written, err := if er = .EOF then none else some er,
          returned := true, writes := i }
      | none => (ioCopy dst rest i written).after [rd]

/-! ## `logsEndpoint` -/

/-- A parsed query string, `url.Values`: each key with its list of values. -/
abbrev Values := List (GoString × List GoString)

/-- The method `Values.Get`: the first value of the key, or the empty string. -/
def Values.Get (v : Values) (key : GoString) : GoString :=
  match v.lookup key with
  | some (first :: _) => first
  | _ => []

/-- Everything one websocket connection on `/logs` meets: its query string, the behaviour
of the peer on each write, and the answers of the Docker client. -/
structure Session where
  query : Values
  ws : Nat → Bytes → WriteResult
  newClient : Option GoError
  containerLogs : GoString → Except GoError (List ReadResult)

/-- A run of a handler: the effects in order, and whether the handler returned. -/
structure Run where
  trace : List Effect
  returned : Bool
deriving DecidableEq, Repr

/-- The text sent when the selector is missing. -/
def missingContainerMsg : GoString :=
  str "container name must be provided as a query parameter"

/-- The handler `logsEndpoint(ws)`. -/
def logsEndpoint (s : Session) : Run :=
  let container := Values.Get s.query (str "container")
  if container = [] then
    { trace := [.wsWrite missingContainerMsg (s.ws 0 missingContainerMsg), .wsClose],
      returned := true }
  else
    match s.newClient with
    | some err =>
      { trace := [.newClient (some err), .wsWrite err.Error (s.ws 0 err.Error), .wsClose],
        returned := true }
    | none =>
      match s.containerLogs container with
      | .error err =>
        { trace := [.newClient none, .containerLogs container (some err),
                    .wsWrite err.Error (s.ws 0 err.Error), .wsClose],
          returned := true }
      | .ok logs =>
        let c := ioCopy s.ws logs 0 0
        let opened := [Effect.newClient none, Effect.containerLogs container none]
        if c.returned then
          match c.err with
          | some err =>
            { trace := opened ++ c.trace ++
                [.wsWrite err.Error (s.ws c.writes err.Error), .wsClose],
              returned := true }
          | none => { trace := opened ++ c.trace, returned := true }
        else
          { trace := opened ++ c.trace, returned := false }

/-! ## `containersEndpoint` -/

/-- The part of `types.Container` the handler reads. -/
structure Container where
  Names : List GoString
deriving DecidableEq, Repr

/-- Run-time panics of indexing and slicing. -/
inductive Panic where
  /-- The expression `Names[0]` on a slice of length 0. -/
  | indexOutOfRange (index length : Nat)
  /-- The expression `name[1:]` on a string of length 0. -/
  | sliceBoundsOutOfRange (low length : Nat)
deriving DecidableEq, Repr

/-- A Go slice of strings: `none` is the nil slice, which `var s []string` declares. -/
abbrev StringSlice := Option (List GoString)

/-- The builtin `append(s, x)`: never nil. -/
def goAppend (s : StringSlice) (x : GoString) : StringSlice := some (s.getD [] ++ [x])

/-- The loop `for _, container := range containers` with body
`containerNames = append(containerNames, container.Names[0][1:])`, started with the
current value of `containerNames`. -/
def extractNames : List Container → StringSlice → Except Panic StringSlice
  | [], containerNames => .ok containerNames
  | container :: rest, containerNames =>
    match container.Names with
    | [] => .error (.indexOutOfRange 0 0)
    | name :: _ =>
      match name with
      | [] => .error (.sliceBoundsOutOfRange 1 0)
      | _ :: tail => extractNames rest (goAppend containerNames tail)

/-- The state of an `http.ResponseWriter`: the header map, the status line once sent, and
the body written so far. -/
structure ResponseWriter where
  header : List (String × String)
  status : Option Nat
  body : Bytes
deriving DecidableEq, Repr

/-- A fresh response. -/
def ResponseWriter.new : ResponseWriter := { header := [], status := none, body := [] }

/-- The call `w.Header().Set(key, value)`. -/
def ResponseWriter.setHeader (w : ResponseWriter) (key value : String) : ResponseWriter :=
  { w with header := (key, value) :: w.header.filter (fun kv => kv.1 ≠ key) }

/-- The call `w.Header().Get(key)`. -/
def ResponseWriter.getHeader (w : ResponseWriter) (key : String) : Option String :=
  w.header.lookup key

/-- The call `w.WriteHeader(code)`: only the first status counts. -/
def ResponseWriter.writeHeader (w : ResponseWriter) (code : Nat) : ResponseWriter :=
  match w.status with
  | some _ => w
  | none => { w with status := some code }

/-- The call `w.Write(p)`: sends status 200 first when no status was sent. -/
def ResponseWriter.write (w : ResponseWriter) (p : Bytes) : ResponseWriter :=
  let w1 := w.writeHeader 200
  { w1 with body := w1.body ++ p }

/-- The function `http.Error(w, error, code)`. -/
def httpError (w : ResponseWriter) (error : GoString) (code : Nat) : ResponseWriter :=
  let w1 := w.setHeader "Content-Type" "text/plain; charset=utf-8"
  let w2 := w1.setHeader "X-Content-Type-Options" "nosniff"
  let w3 := w2.writeHeader code
  w3.write (error ++ str "\n")

/-- The JSON text `encoding/json` produces for a `[]string`: `null` for the nil slice,
otherwise the bracketed, comma-separated encodings of the elements. `encString` is the
library encoding of one string. -/
def jsonStringSlice (encString : GoString → Bytes) : StringSlice → Bytes
  | none => str "null"
  | some xs => str "[" ++ (List.intercalate (str ",") (xs.map encString)) ++ str "]"

/-- The call `json.NewEncoder(w).Encode(v)` on a `[]string`: the JSON text and a newline,
in one write. -/
def jsonEncode (encString : GoString → Bytes) (w : ResponseWriter) (v : StringSlice) :
    ResponseWriter :=
  w.write (jsonStringSlice encString v ++ str "\n")

/-- The answers of the Docker client to a `/containers` request. -/
structure Docker where
  newClient : Option GoError
  containerList : Except GoError (List Container)

/-- How a handler of `net/http` ends: it returns, leaving the response it built, or it
panics. -/
inductive Handled where
  | response (w : ResponseWriter)
  | panicked (p : Panic)
deriving DecidableEq, Repr

/-- The handler `containersEndpoint(w, r)`. -/
def containersEndpoint (encString : GoString → Bytes) (d : Docker) (w : ResponseWriter) :
    Handled :=
  match d.newClient with
  | some err => .response (httpError w err.Error 500)
  | none =>
    match d.containerList with
    | .error err => .response (httpError w err.Error 500)
    | .ok containers =>
      match extractNames containers none with
      | .error p => .panicked p
      | .ok containerNames =>
        let w1 := w.setHeader "Content-Type" "application/json"
        .response (jsonEncode encString w1 containerNames)

/-- The JSON encoding of a string that needs no escape: the bytes between double quotes.
Container names, made of letters, digits, `_`, `.` and `-`, are such strings. -/
def quotePlain (s : GoString) : Bytes := str "\"" ++ s ++ str "\""

/-! ## Vocabulary of the statements, and concrete sessions -/

/-- The chunks that reach `ws.Write`: the loop skips reads that delivered nothing. -/
def nonEmptyChunks (chunks : List Bytes) : List Bytes := chunks.filter (fun d => !d.isEmpty)

/-- The effect is a read that returned, or a write the peer accepted in full. -/
def Effect.isRelay : Effect → Prop
  | .read _ _ => True
  | .wsWrite msg res => res.succeeded msg
  | _ => False

instance (e : Effect) : Decidable e.isRelay := by
  cases e <;> unfold Effect.isRelay <;> exact inferInstance

/-- The effect is a failure of the pump: a read that returned an error other than `EOF`, or
a write the peer did not accept in full. -/
def Effect.isFailure : Effect → Prop
  | .read _ (some er) => er ≠ .EOF
  | .wsWrite msg res => ¬ res.succeeded msg
  | _ => False

instance (e : Effect) : Decidable e.isFailure := by
  cases e with
  | read data err => cases err <;> unfold Effect.isFailure <;> exact inferInstance
  | _ => unfold Effect.isFailure; exact inferInstance

/-- The effect is a call on the Log Stream or a write to the client connection. -/
def Effect.isPump : Effect → Prop
  | .read _ _ => True
  | .readBlocked => True
  | .wsWrite _ _ => True
  | _ => False

/-- No read of the Log Stream comes after a failed write in the trace. -/
def NoReadAfterFailedWrite (trace : List Effect) : Prop :=
  ∀ (pre post : List Effect) (msg : Bytes) (res : WriteResult),
    trace = pre ++ .wsWrite msg res :: post → ¬ res.succeeded msg →
    ∀ e ∈ post, e.isRead = false

/-- The two effects that open the Log Stream of `container`. -/
def opened (container : GoString) : List Effect :=
  [.newClient none, .containerLogs container none]

/-- A peer that accepts every write in full. -/
def acceptAll : Nat → Bytes → WriteResult := fun _ msg => ⟨msg.length, none⟩

/-- A peer that accepts `k` writes in full and is gone afterwards. -/
def goneAfter (k : Nat) : Nat → Bytes → WriteResult :=
  fun i msg => if i < k then ⟨msg.length, none⟩ else ⟨0, some (.other (str "broken pipe"))⟩

/-- A connection on `/logs?container=web` whose Log Stream opens and follows `logs`. -/
def webSession (ws : Nat → Bytes → WriteResult) (logs : List ReadResult) : Session :=
  { query := [(str "container", [str "web"])], ws := ws, newClient := none,
    containerLogs := fun _ => .ok logs }

/-- A connection on `/logs` with no query parameter at all. -/
def bareSession : Session :=
  { query := [], ws := acceptAll, newClient := none, containerLogs := fun _ => .ok [] }

/-- A connection on `/logs?container=` whose peer is already gone. -/
def emptySelectorSession : Session :=
  { query := [(str "container", [[]])], ws := goneAfter 0, newClient := none,
    containerLogs := fun _ => .ok [] }

/-- A stream of three chunks to a peer that accepts the first write only. -/
def lostPeerSession : Session :=
  webSession (goneAfter 1) [⟨[97, 98], none⟩, ⟨[99], none⟩, ⟨[100], none⟩]

/-- A stream that yields `ab` and then ends with `EOF`, to a peer that accepts all. -/
def eofSession : Session :=
  webSession acceptAll [⟨[97, 98], none⟩, ⟨[], some .EOF⟩]

/-- A stream that yields `ab` and then breaks with the error `boom`, to a peer that
accepts all. -/
def readErrorSession : Session :=
  webSession acceptAll [⟨[97, 98], none⟩, ⟨[], some (.other (str "boom"))⟩]

/-- A connection on `/logs?container=ghost` for which the daemon knows no such container. -/
def ghostSession : Session :=
  { query := [(str "container", [str "ghost"])], ws := acceptAll, newClient := none,
    containerLogs := fun _ => .error (.other (str "No such container: ghost")) }

/-- A stream that yields `ab`, an empty read and `c`, then breaks with the error `boom`;
the peer accepts the two chunks and is gone when the diagnostic is written. -/
def brokenStreamSession : Session :=
  webSession (goneAfter 2)
    [⟨[97, 98], none⟩, ⟨[], none⟩, ⟨[99], none⟩, ⟨[], some (.other (str "boom"))⟩,
      ⟨[100], none⟩]

/-- The identifier `id` is the first name of `c` without its first byte. -/
def FirstNameTail (c : Container) (id : GoString) : Prop :=
  ∃ b, c.Names.head? = some (b :: id)

/-- The container makes `Names[0][1:]` panic: it has no name, or its first name is empty. -/
def Unnamed (c : Container) : Prop := c.Names = [] ∨ c.Names.head? = some []

/-! ## The copy loop, step by step -/

theorem ioCopy_cons_empty (dst : Nat → Bytes → WriteResult) (r : ReadResult)
    (rest : List ReadResult) (i : Nat) (written : Int) (h : r.data = []) :
    ioCopy dst (r :: rest) i written =
      match r.err with
      | some er =>
        { trace := [.read r.data r.err], written := written,
          err := if er = .EOF then none else some er, returned := true, writes := i }
      | none => (ioCopy dst rest i written).after [.read r.data r.err] := by
  simp [ioCopy, h]

theorem ioCopy_cons_succeeded (dst : Nat → Bytes → WriteResult) (r : ReadResult)
    (rest : List ReadResult) (i : Nat) (written : Int) (h : r.data ≠ [])
    (hw : (dst i r.data).succeeded r.data) :
    ioCopy dst (r :: rest) i written =
      match r.err with
      | some er =>
        { trace := [.read r.data r.err, .wsWrite r.data (dst i r.data)],
          written := written + (r.data.length : Int),
          err := if er = .EOF then none else some er, returned := true, writes := i + 1 }
      | none =>
        (ioCopy dst rest (i + 1) (written + (r.data.length : Int))).after
          [.read r.data r.err, .wsWrite r.data (dst i r.data)] := by
  obtain ⟨hn, he⟩ := hw
  have hpos : 0 < r.data.length := List.length_pos.mpr h
  have hlt : ¬ ((r.data.length : Int) < 0) := by omega
  simp [ioCopy, hpos, hn, he, hlt]

@[simp] theorem after_trace (pre : List Effect) (c : CopyResult) :
    (c.after pre).trace = pre ++ c.trace := rfl

@[simp] theorem after_err (pre : List Effect) (c : CopyResult) : (c.after pre).err = c.err := rfl

@[simp] theorem after_returned (pre : List Effect) (c : CopyResult) :
    (c.after pre).returned = c.returned := rfl

@[simp] theorem after_writes (pre : List Effect) (c : CopyResult) :
    (c.after pre).writes = c.writes := rfl

theorem nonEmptyChunks_cons_empty (chunks : List Bytes) :
    nonEmptyChunks ([] :: chunks) = nonEmptyChunks chunks := by
  simp [nonEmptyChunks]

theorem nonEmptyChunks_cons (d : Bytes) (chunks : List Bytes) (h : d ≠ []) :
    nonEmptyChunks (d :: chunks) = d :: nonEmptyChunks chunks := by
  simp [nonEmptyChunks, h]

theorem writtenMsgs_cons_read (data : Bytes) (err : Option GoError) (t : List Effect) :
    writtenMsgs (.read data err :: t) = writtenMsgs t := by
  simp [writtenMsgs, Effect.written?]

theorem writtenMsgs_cons_write (msg : Bytes) (res : WriteResult) (t : List Effect) :
    writtenMsgs (.wsWrite msg res :: t) = msg :: writtenMsgs t := by
  simp [writtenMsgs, Effect.written?]

/-- A stream that yields `chunks`, then a read carrying `last` and the error `er`: while
the peer accepts the non-empty chunks, the loop returns after relaying exactly them. -/
theorem ioCopy_relay (dst : Nat → Bytes → WriteResult) (last : Bytes) (er : GoError)
    (rest : List ReadResult) :
    ∀ (chunks : List Bytes) (i : Nat) (written : Int),
      (∀ j msg, (nonEmptyChunks (chunks ++ [last]))[j]? = some msg →
        (dst (i + j) msg).succeeded msg) →
      (ioCopy dst (chunks.map (fun d => ⟨d, none⟩) ++ ⟨last, some er⟩ :: rest) i
          written).returned = true ∧
      (ioCopy dst (chunks.map (fun d => ⟨d, none⟩) ++ ⟨last, some er⟩ :: rest) i
          written).err = (if er = .EOF then none else some er) ∧
      (ioCopy dst (chunks.map (fun d => ⟨d, none⟩) ++ ⟨last, some er⟩ :: rest) i
          written).writes = i + (nonEmptyChunks (chunks ++ [last])).length ∧
      writtenMsgs (ioCopy dst (chunks.map (fun d => ⟨d, none⟩) ++ ⟨last, some er⟩ :: rest) i
          written).trace = nonEmptyChunks (chunks ++ [last]) ∧
      ∀ x ∈ (ioCopy dst (chunks.map (fun d => ⟨d, none⟩) ++ ⟨last, some er⟩ :: rest) i
          written).trace, x.isRelay := by
  intro chunks
  induction chunks with
  | nil =>
    intro i written hw
    by_cases hl : last = []
    · subst hl
      simp [ioCopy_cons_empty, nonEmptyChunks, writtenMsgs, Effect.written?, Effect.isRelay]
    · have h0 : (dst i last).succeeded last := by
        have := hw 0 last (by simp [nonEmptyChunks, hl])
        simpa using this
      have hstep := ioCopy_cons_succeeded dst ⟨last, some er⟩ rest i written hl h0
      simp only [List.map_nil, List.nil_append]
      rw [hstep]
      simp [nonEmptyChunks, hl, writtenMsgs, Effect.written?, Effect.isRelay, h0]
  | cons d chunks ih =>
    intro i written hw
    by_cases hd : d = []
    · subst hd
      have hstep := ioCopy_cons_empty dst ⟨[], none⟩
        (chunks.map (fun d => ⟨d, none⟩) ++ ⟨last, some er⟩ :: rest) i written rfl
      simp only [List.map_cons, List.cons_append]
      rw [hstep]
      simp only [List.cons_append, nonEmptyChunks_cons_empty] at hw ⊢
      obtain ⟨h1, h2, h3, h4, h5⟩ := ih i written hw
      refine ⟨by simpa using h1, by simpa using h2, by simpa using h3, ?_, ?_⟩
      · simpa [writtenMsgs_cons_read] using h4
      · intro x hx
        simp only [after_trace, List.singleton_append, List.mem_cons] at hx
        rcases hx with hx | hx
        · subst hx; trivial
        · exact h5 x hx
    · have h0 : (dst i d).succeeded d := by
        have := hw 0 d (by simp [nonEmptyChunks, hd])
        simpa using this
      have hstep := ioCopy_cons_succeeded dst ⟨d, none⟩
        (chunks.map (fun d => ⟨d, none⟩) ++ ⟨last, some er⟩ :: rest) i written hd h0
      simp only [List.map_cons, List.cons_append]
      rw [hstep]
      simp only [List.cons_append, nonEmptyChunks_cons _ _ hd] at hw ⊢
      have hw1 : ∀ j msg, (nonEmptyChunks (chunks ++ [last]))[j]? = some msg →
          (dst (i + 1 + j) msg).succeeded msg := by
        intro j msg hj
        have := hw (j + 1) msg (by simpa using hj)
        have e : i + (j + 1) = i + 1 + j := by omega
        rwa [e] at this
      obtain ⟨h1, h2, h3, h4, h5⟩ := ih (i + 1) (written + (d.length : Int)) hw1
      refine ⟨by simpa using h1, by simpa using h2, ?_, ?_, ?_⟩
      · simp only [after_writes, h3, List.length_cons]; omega
      · simp [writtenMsgs_cons_read, writtenMsgs_cons_write, h4]
      · intro x hx
        simp only [after_trace, List.cons_append, List.nil_append, List.mem_cons] at hx
        rcases hx with hx | hx | hx
        · subst hx; trivial
        · subst hx; exact h0
        · exact h5 x hx

theorem flatten_nonEmptyChunks (chunks : List Bytes) :
    (nonEmptyChunks chunks).flatten = chunks.flatten := by
  induction chunks with
  | nil => rfl
  | cons d chunks ih =>
    by_cases hd : d = []
    · subst hd
      simpa [nonEmptyChunks_cons_empty] using ih
    · simp [nonEmptyChunks_cons _ _ hd, ih]

/-- A write the peer does not accept in full ends the loop at once, with an error. -/
theorem ioCopy_cons_failed (dst : Nat → Bytes → WriteResult) (r : ReadResult)
    (rest : List ReadResult) (i : Nat) (written : Int) (h : r.data ≠ [])
    (hw : ¬ (dst i r.data).succeeded r.data) :
    (ioCopy dst (r :: rest) i written).trace =
        [.read r.data r.err, .wsWrite r.data (dst i r.data)] ∧
      (ioCopy dst (r :: rest) i written).returned = true ∧
      (ioCopy dst (r :: rest) i written).err ≠ none ∧
      (ioCopy dst (r :: rest) i written).writes = i + 1 := by
  have hpos : 0 < r.data.length := List.length_pos.mpr h
  simp only [WriteResult.succeeded, not_and_or] at hw
  by_cases hinv : (dst i r.data).n < 0 ∨ (r.data.length : Int) < (dst i r.data).n
  · cases he : (dst i r.data).err with
    | none => simp [ioCopy, hpos, hinv, he]
    | some e => simp [ioCopy, hpos, hinv, he]
  · cases he : (dst i r.data).err with
    | none =>
      have hn : ¬ (r.data.length : Int) = (dst i r.data).n := by
        rcases hw with hw | hw
        · exact fun h' => hw h'.symm
        · exact absurd he hw
      simp [ioCopy, hpos, hinv, he, hn]
    | some e => simp [ioCopy, hpos, hinv, he]

/-- The copy loop only reads the stream and writes to the connection. -/
theorem ioCopy_trace_isPump (dst : Nat → Bytes → WriteResult) :
    ∀ (src : List ReadResult) (i : Nat) (written : Int),
      ∀ x ∈ (ioCopy dst src i written).trace, x.isPump := by
  intro src
  induction src with
  | nil =>
    intro i written x hx
    simp only [ioCopy, List.mem_singleton] at hx
    subst hx; trivial
  | cons r rest ih =>
    intro i written x hx
    by_cases hd : r.data = []
    · rw [ioCopy_cons_empty dst r rest i written hd] at hx
      cases he : r.err with
      | none =>
        simp only [he, after_trace, List.singleton_append, List.mem_cons] at hx
        rcases hx with hx | hx
        · subst hx; trivial
        · exact ih i written x hx
      | some er =>
        simp only [he, List.mem_singleton] at hx
        subst hx; trivial
    · by_cases hw : (dst i r.data).succeeded r.data
      · rw [ioCopy_cons_succeeded dst r rest i written hd hw] at hx
        cases he : r.err with
        | none =>
          simp only [he, after_trace, List.cons_append, List.nil_append, List.mem_cons] at hx
          rcases hx with hx | hx | hx
          · subst hx; trivial
          · subst hx; trivial
          · exact ih _ _ x hx
        | some er =>
          simp only [he, List.mem_cons, List.mem_singleton] at hx
          rcases hx with hx | hx | hx
          · subst hx; trivial
          · subst hx; trivial
          · cases hx
      · rw [(ioCopy_cons_failed dst r rest i written hd hw).1] at hx
        simp only [List.mem_cons, List.mem_singleton] at hx
        rcases hx with hx | hx | hx
        · subst hx; trivial
        · subst hx; trivial
        · cases hx

/-- A failure in the trace of the copy loop makes it return an error. -/
theorem ioCopy_failure (dst : Nat → Bytes → WriteResult) :
    ∀ (src : List ReadResult) (i : Nat) (written : Int),
      (∃ x ∈ (ioCopy dst src i written).trace, x.isFailure) →
      (ioCopy dst src i written).returned = true ∧ (ioCopy dst src i written).err ≠ none := by
  intro src
  induction src with
  | nil =>
    intro i written ⟨x, hx, hf⟩
    simp only [ioCopy, List.mem_singleton] at hx
    subst hx; cases hf
  | cons r rest ih =>
    intro i written ⟨x, hx, hf⟩
    by_cases hd : r.data = []
    · rw [ioCopy_cons_empty dst r rest i written hd] at hx ⊢
      cases he : r.err with
      | none =>
        simp only [he, after_trace, List.singleton_append, List.mem_cons] at hx
        rcases hx with hx | hx
        · subst hx; cases hf
        · simpa using ih i written ⟨x, hx, hf⟩
      | some er =>
        simp only [he, List.mem_singleton] at hx
        subst hx
        have hne : er ≠ .EOF := hf
        simp [hne]
    · by_cases hw : (dst i r.data).succeeded r.data
      · rw [ioCopy_cons_succeeded dst r rest i written hd hw] at hx ⊢
        cases he : r.err with
        | none =>
          simp only [he, after_trace, List.cons_append, List.nil_append, List.mem_cons] at hx
          rcases hx with hx | hx | hx
          · subst hx; cases hf
          · subst hx; exact absurd hw hf
          · simpa using ih _ _ ⟨x, hx, hf⟩
        | some er =>
          simp only [he, List.mem_cons, List.mem_singleton] at hx
          rcases hx with hx | hx | hx
          · subst hx
            have hne : er ≠ .EOF := hf
            simp [hne]
          · subst hx; exact absurd hw hf
          · cases hx
      · obtain ⟨-, h2, h3, -⟩ := ioCopy_cons_failed dst r rest i written hd hw
        exact ⟨h2, h3⟩

theorem noReadAfter_of_noRead (t : List Effect) (h : ∀ e ∈ t, e.isRead = false) :
    NoReadAfterFailedWrite t := by
  intro pre post msg res ht _ e he
  apply h
  rw [ht]
  simp [he]

theorem noReadAfter_cons (x : Effect) (t : List Effect) (ht : NoReadAfterFailedWrite t)
    (hx : ∀ msg res, x = .wsWrite msg res → ¬ res.succeeded msg → ∀ e ∈ t, e.isRead = false) :
    NoReadAfterFailedWrite (x :: t) := by
  intro pre post msg res hsplit hfail
  cases pre with
  | nil =>
    simp only [List.nil_append, List.cons.injEq] at hsplit
    obtain ⟨h1, h2⟩ := hsplit
    subst h2
    exact hx msg res h1 hfail
  | cons y pre =>
    simp only [List.cons_append, List.cons.injEq] at hsplit
    exact ht pre post msg res hsplit.2 hfail

/-- In the copy loop, followed by effects that do not read, no read follows a failed
write. -/
theorem ioCopy_noReadAfter (dst : Nat → Bytes → WriteResult) (tail : List Effect)
    (htail : ∀ e ∈ tail, e.isRead = false) :
    ∀ (src : List ReadResult) (i : Nat) (written : Int),
      NoReadAfterFailedWrite ((ioCopy dst src i written).trace ++ tail) := by
  have hT : NoReadAfterFailedWrite tail := noReadAfter_of_noRead tail htail
  intro src
  induction src with
  | nil =>
    intro i written
    simp only [ioCopy, List.singleton_append]
    exact noReadAfter_cons _ _ hT (fun _ _ h => by cases h)
  | cons r rest ih =>
    intro i written
    by_cases hd : r.data = []
    · rw [ioCopy_cons_empty dst r rest i written hd]
      cases he : r.err with
      | none =>
        simp only [after_trace, List.singleton_append, List.cons_append]
        exact noReadAfter_cons _ _ (ih i written) (fun _ _ h => by cases h)
      | some er =>
        simp only [List.singleton_append]
        exact noReadAfter_cons _ _ hT (fun _ _ h => by cases h)
    · by_cases hw : (dst i r.data).succeeded r.data
      · rw [ioCopy_cons_succeeded dst r rest i written hd hw]
        cases he : r.err with
        | none =>
          simp only [after_trace, List.cons_append, List.nil_append]
          refine noReadAfter_cons _ _ (noReadAfter_cons _ _ (ih _ _) ?_)
            (fun _ _ h => by cases h)
          intro msg res h hfail
          simp only [Effect.wsWrite.injEq] at h
          obtain ⟨h1, h2⟩ := h
          subst h1 h2
          exact absurd hw hfail
        | some er =>
          simp only [List.cons_append, List.nil_append]
          exact noReadAfter_cons _ _ (noReadAfter_cons _ _ hT (fun _ _ _ _ => htail))
            (fun _ _ h => by cases h)
      · rw [(ioCopy_cons_failed dst r rest i written hd hw).1]
        simp only [List.cons_append, List.nil_append]
        exact noReadAfter_cons _ _ (noReadAfter_cons _ _ hT (fun _ _ _ _ => htail))
          (fun _ _ h => by cases h)

/-! ## The handler `logsEndpoint` -/

/-- Once the stream is open, the handler is the copy loop, then the diagnostic and the
close when the loop returned an error. -/
theorem logsEndpoint_streaming (s : Session) (container : GoString) (logs : List ReadResult)
    (hsel : Values.Get s.query (str "container") = container) (hne : container ≠ [])
    (hcli : s.newClient = none) (hlogs : s.containerLogs container = .ok logs) :
    logsEndpoint s =
      if (ioCopy s.ws logs 0 0).returned then
        match (ioCopy s.ws logs 0 0).err with
        | some err =>
          { trace := opened container ++ (ioCopy s.ws logs 0 0).trace ++
              [.wsWrite err.Error (s.ws (ioCopy s.ws logs 0 0).writes err.Error), .wsClose],
            returned := true }
        | none => { trace := opened container ++ (ioCopy s.ws logs 0 0).trace, returned := true }
      else
        { trace := opened container ++ (ioCopy s.ws logs 0 0).trace, returned := false } := by
  unfold logsEndpoint
  simp only [hsel, hne, hcli, hlogs, if_false, opened]

/-- C1. Streaming in `logsEndpoint`: when the Log Stream yields the chunks `chunks` and then
ends with `EOF` (the read that reports `EOF` may itself carry the bytes `last`), and the
peer accepts every chunk written to it, the handler returns, the messages written to the
client connection are exactly the non-empty chunks in the order yielded, and their
concatenation is the concatenation of all bytes yielded: nothing is lost, duplicated,
reordered or added, and no diagnostic is written on `EOF`. -/
theorem C1_stream_relayed_in_order (s : Session) (container : GoString)
    (chunks : List Bytes) (last : Bytes)
    (hsel : Values.Get s.query (str "container") = container) (hne : container ≠ [])
    (hcli : s.newClient = none)
    (hlogs : s.containerLogs container =
      .ok (chunks.map (fun d => ⟨d, none⟩) ++ [⟨last, some .EOF⟩]))
    (hw : ∀ j msg, (nonEmptyChunks (chunks ++ [last]))[j]? = some msg →
      (s.ws j msg).succeeded msg) :
    (logsEndpoint s).returned = true ∧
    writtenMsgs (logsEndpoint s).trace = nonEmptyChunks (chunks ++ [last]) ∧
    (writtenMsgs (logsEndpoint s).trace).flatten = (chunks ++ [last]).flatten := by
  have hw0 : ∀ j msg, (nonEmptyChunks (chunks ++ [last]))[j]? = some msg →
      (s.ws (0 + j) msg).succeeded msg := by
    intro j msg hj
    simpa using hw j msg hj
  obtain ⟨h1, h2, -, h4, -⟩ := ioCopy_relay s.ws last .EOF [] chunks 0 0 hw0
  have hrun := logsEndpoint_streaming s container _ hsel hne hcli hlogs
  rw [h1] at hrun
  simp only [if_true, h2] at hrun
  have hmsgs : writtenMsgs (logsEndpoint s).trace = nonEmptyChunks (chunks ++ [last]) := by
    rw [hrun]
    simp only [opened, List.cons_append, List.nil_append]
    simpa [writtenMsgs, Effect.written?] using h4
  refine ⟨by rw [hrun], hmsgs, ?_⟩
  rw [hmsgs, flatten_nonEmptyChunks]

/-- C1 at the stream `ab`, an empty read, `c`, then `EOF`, with a peer that accepts all. -/
theorem C1_stream_relayed_in_order_witness :
    (logsEndpoint (webSession acceptAll
        [⟨[97, 98], none⟩, ⟨[], none⟩, ⟨[99], none⟩, ⟨[], some .EOF⟩])).returned = true ∧
    writtenMsgs (logsEndpoint (webSession acceptAll
        [⟨[97, 98], none⟩, ⟨[], none⟩, ⟨[99], none⟩, ⟨[], some .EOF⟩])).trace
      = [[97, 98], [99]] ∧
    (writtenMsgs (logsEndpoint (webSession acceptAll
        [⟨[97, 98], none⟩, ⟨[], none⟩, ⟨[99], none⟩, ⟨[], some .EOF⟩])).trace).flatten
      = [97, 98, 99] :=
  C1_stream_relayed_in_order
    (webSession acceptAll [⟨[97, 98], none⟩, ⟨[], none⟩, ⟨[99], none⟩, ⟨[], some .EOF⟩])
    (str "web") [[97, 98], [], [99]] [] (by decide) (by decide) rfl rfl
    (fun _ _ _ => ⟨rfl, rfl⟩)

/-- C2. A `/logs` connection whose `container` parameter is absent, has no value, or has
an empty first value: the handler writes the one fixed diagnostic, closes the client
connection and returns. These two calls are its whole trace, so no runtime client is
created and no Log Stream is opened or read. -/
theorem C2_missing_selector (s : Session)
    (h : s.query.lookup (str "container") = none ∨
      s.query.lookup (str "container") = some [] ∨
      ∃ more, s.query.lookup (str "container") = some ([] :: more)) :
    logsEndpoint s =
      { trace := [.wsWrite missingContainerMsg (s.ws 0 missingContainerMsg), .wsClose],
        returned := true } ∧
    (∀ e ∈ (logsEndpoint s).trace,
      (∀ err, e ≠ .newClient err) ∧ (∀ c err, e ≠ .containerLogs c err) ∧
        e.isRead = false) := by
  have hget : Values.Get s.query (str "container") = [] := by
    unfold Values.Get
    rcases h with h | h | ⟨more, h⟩ <;> rw [h]
  have hrun : logsEndpoint s =
      { trace := [.wsWrite missingContainerMsg (s.ws 0 missingContainerMsg), .wsClose],
        returned := true } := by
    unfold logsEndpoint
    simp only [hget, if_true]
  refine ⟨hrun, ?_⟩
  intro e he
  rw [hrun] at he
  simp only [List.mem_cons, List.mem_singleton, List.not_mem_nil, or_false] at he
  rcases he with he | he <;> subst he <;> simp [Effect.isRead]

/-- C2 at a connection with no query parameter and at one with `container=`. -/
theorem C2_missing_selector_witness :
    (logsEndpoint bareSession).trace
      = [.wsWrite missingContainerMsg ⟨52, none⟩, .wsClose] ∧
    (logsEndpoint emptySelectorSession).trace
      = [.wsWrite missingContainerMsg ⟨0, some (.other (str "broken pipe"))⟩, .wsClose] :=
  ⟨congrArg Run.trace (C2_missing_selector bareSession (Or.inl rfl)).1,
   congrArg Run.trace
    (C2_missing_selector emptySelectorSession (Or.inr (Or.inr ⟨[], by decide⟩))).1⟩

/-- C3. In every run of `logsEndpoint`, wherever the trace holds a write to the client
connection that the peer did not accept in full, nothing after it is a read of the Log
Stream: the pump never polls the stream again once a write has failed. -/
theorem C3_no_read_after_failed_write (s : Session) (pre post : List Effect) (msg : Bytes)
    (res : WriteResult)
    (htrace : (logsEndpoint s).trace = pre ++ .wsWrite msg res :: post)
    (hfail : ¬ res.succeeded msg) :
    ∀ e ∈ post, e.isRead = false := by
  have key : NoReadAfterFailedWrite (logsEndpoint s).trace := by
    unfold logsEndpoint
    simp only
    split
    · exact noReadAfter_of_noRead _ (by simp [Effect.isRead])
    · split
      · exact noReadAfter_of_noRead _ (by simp [Effect.isRead])
      · split
        · exact noReadAfter_of_noRead _ (by simp [Effect.isRead])
        · rename_i logs _
          have hpre : ∀ (t : List Effect), NoReadAfterFailedWrite t →
              NoReadAfterFailedWrite
                (Effect.newClient none ::
                  Effect.containerLogs (Values.Get s.query (str "container")) none :: t) :=
            fun t ht => noReadAfter_cons _ _ (noReadAfter_cons _ _ ht
              (fun _ _ h => by cases h)) (fun _ _ h => by cases h)
          split
          · split
            · rename_i err _
              have := ioCopy_noReadAfter s.ws
                [.wsWrite err.Error (s.ws (ioCopy s.ws logs 0 0).writes err.Error), .wsClose]
                (by simp [Effect.isRead]) logs 0 0
              simpa using hpre _ this
            · have := ioCopy_noReadAfter s.ws [] (by simp) logs 0 0
              simpa using hpre _ this
          · have := ioCopy_noReadAfter s.ws [] (by simp) logs 0 0
            simpa using hpre _ this
  exact key pre post msg res htrace hfail

/-- C3 at a stream of three chunks whose peer accepts the first write only: after the
failed second write come the diagnostic and the close, the third chunk is never read. -/
theorem C3_no_read_after_failed_write_witness :
    (logsEndpoint lostPeerSession).trace =
      [.newClient none, .containerLogs (str "web") none, .read [97, 98] none,
        .wsWrite [97, 98] ⟨2, none⟩, .read [99] none] ++
      .wsWrite [99] ⟨0, some (.other (str "broken pipe"))⟩ ::
        [.wsWrite (str "broken pipe") ⟨0, some (.other (str "broken pipe"))⟩, .wsClose] ∧
    List.all [Effect.wsWrite (str "broken pipe") ⟨0, some (.other (str "broken pipe"))⟩,
      Effect.wsClose] (fun e => !e.isRead) = true :=
  ⟨by decide,
    List.all_eq_true.mpr (fun e he => by
      have h := C3_no_read_after_failed_write lostPeerSession
        [.newClient none, .containerLogs (str "web") none, .read [97, 98] none,
          .wsWrite [97, 98] ⟨2, none⟩, .read [99] none]
        [.wsWrite (str "broken pipe") ⟨0, some (.other (str "broken pipe"))⟩, .wsClose]
        [99] ⟨0, some (.other (str "broken pipe"))⟩ (by decide) (by decide) e he
      simp [h])⟩

/-- C4, as stated, fails. After a stream that ends with `EOF` the handler returns having
closed neither the Log Stream nor the client connection; after a stream that breaks with a
read error it returns having closed the client connection, and not the Log Stream. -/
theorem C4_counterexample :
    ((logsEndpoint eofSession).returned = true ∧
      (logsEndpoint eofSession).trace =
        [.newClient none, .containerLogs (str "web") none, .read [97, 98] none,
          .wsWrite [97, 98] ⟨2, none⟩, .read [] (some .EOF)] ∧
      Effect.logsClose ∉ (logsEndpoint eofSession).trace ∧
      Effect.wsClose ∉ (logsEndpoint eofSession).trace) ∧
    ((logsEndpoint readErrorSession).returned = true ∧
      (logsEndpoint readErrorSession).trace =
        [.newClient none, .containerLogs (str "web") none, .read [97, 98] none,
          .wsWrite [97, 98] ⟨2, none⟩, .read [] (some (.other (str "boom"))),
          .wsWrite (str "boom") ⟨4, none⟩, .wsClose] ∧
      Effect.logsClose ∉ (logsEndpoint readErrorSession).trace) := by
  decide

/-- C4, amended. On every run of `logsEndpoint` in which the Log Stream was opened, the
handler never closes the Log Stream; and when the run meets a read error other than `EOF`
or a write the peer does not accept in full, the handler returns and closing the client
connection is its last effect. -/
theorem C4_client_closed_on_error_stream_never_released (s : Session) (container : GoString)
    (logs : List ReadResult)
    (hsel : Values.Get s.query (str "container") = container) (hne : container ≠ [])
    (hcli : s.newClient = none) (hlogs : s.containerLogs container = .ok logs) :
    Effect.logsClose ∉ (logsEndpoint s).trace ∧
    ((∃ x ∈ (logsEndpoint s).trace, x.isFailure) →
      (logsEndpoint s).returned = true ∧
        ∃ pre, (logsEndpoint s).trace = pre ++ [.wsClose]) := by
  have hrun := logsEndpoint_streaming s container logs hsel hne hcli hlogs
  have hpump := ioCopy_trace_isPump s.ws logs 0 0
  have hfailure := ioCopy_failure s.ws logs 0 0
  have hnoClose : Effect.logsClose ∉ (ioCopy s.ws logs 0 0).trace :=
    fun hmem => hpump _ hmem
  have hopened : ∀ x ∈ opened container ++ (ioCopy s.ws logs 0 0).trace, x.isFailure →
      ∃ x ∈ (ioCopy s.ws logs 0 0).trace, x.isFailure := by
    intro x hx hf
    simp only [opened, List.cons_append, List.nil_append, List.mem_cons] at hx
    rcases hx with hx | hx | hx
    · subst hx; cases hf
    · subst hx; cases hf
    · exact ⟨x, hx, hf⟩
  cases hret : (ioCopy s.ws logs 0 0).returned with
  | false =>
    simp only [hret, Bool.false_eq_true, if_false] at hrun
    rw [hrun]
    refine ⟨by simpa [opened] using hnoClose, ?_⟩
    rintro ⟨x, hx, hf⟩
    have := (hfailure (hopened x hx hf)).1
    simp [hret] at this
  | true =>
    simp only [hret, if_true] at hrun
    cases herr : (ioCopy s.ws logs 0 0).err with
    | none =>
      simp only [herr] at hrun
      rw [hrun]
      refine ⟨by simpa [opened] using hnoClose, ?_⟩
      rintro ⟨x, hx, hf⟩
      exact absurd herr (hfailure (hopened x hx hf)).2
    | some err =>
      simp only [herr] at hrun
      rw [hrun]
      refine ⟨by simpa [opened] using hnoClose, fun _ => ⟨rfl, ?_⟩⟩
      exact ⟨opened container ++ (ioCopy s.ws logs 0 0).trace ++
        [.wsWrite err.Error (s.ws (ioCopy s.ws logs 0 0).writes err.Error)], by simp⟩

/-- C4, amended, at a stream that breaks with a read error after one chunk. -/
theorem C4_client_closed_on_error_stream_never_released_witness :
    (∃ x ∈ (logsEndpoint readErrorSession).trace, x.isFailure) ∧
    (logsEndpoint readErrorSession).returned = true ∧
    ∃ pre, (logsEndpoint readErrorSession).trace = pre ++ [.wsClose] :=
  have hfail : ∃ x ∈ (logsEndpoint readErrorSession).trace, x.isFailure :=
    ⟨.read [] (some (.other (str "boom"))), by decide, by simp [Effect.isFailure]⟩
  ⟨hfail, (C4_client_closed_on_error_stream_never_released readErrorSession (str "web")
    [⟨[97, 98], none⟩, ⟨[], some (.other (str "boom"))⟩]
    (by decide) (by decide) rfl rfl).2 hfail⟩

/-- C7. A `/logs` connection with a non-empty selector whose Log Stream cannot be opened,
because building the runtime client fails or because the log request returns an error: the
handler writes one message, the text of that error, closes the client connection and
returns. Its trace holds nothing else but the failed opening, so no Log Stream is ever
read. -/
theorem C7_open_failure_diagnostic_then_close (s : Session) (container : GoString)
    (err : GoError)
    (hsel : Values.Get s.query (str "container") = container) (hne : container ≠ [])
    (hfail : s.newClient = some err ∨
      (s.newClient = none ∧ s.containerLogs container = .error err)) :
    (∃ opening,
      (opening = [Effect.newClient (some err)] ∨
        opening = [Effect.newClient none, Effect.containerLogs container (some err)]) ∧
      logsEndpoint s =
        { trace := opening ++ [.wsWrite err.Error (s.ws 0 err.Error), .wsClose],
          returned := true }) ∧
    writtenMsgs (logsEndpoint s).trace = [err.Error] ∧
    (∀ e ∈ (logsEndpoint s).trace, e.isRead = false) := by
  have hrun : ∃ opening,
      (opening = [Effect.newClient (some err)] ∨
        opening = [Effect.newClient none, Effect.containerLogs container (some err)]) ∧
      logsEndpoint s =
        { trace := opening ++ [.wsWrite err.Error (s.ws 0 err.Error), .wsClose],
          returned := true } := by
    rcases hfail with h | ⟨h1, h2⟩
    · refine ⟨_, Or.inl rfl, ?_⟩
      unfold logsEndpoint
      simp only [hsel, hne, h, if_false, List.cons_append, List.nil_append]
    · refine ⟨_, Or.inr rfl, ?_⟩
      unfold logsEndpoint
      simp only [hsel, hne, h1, h2, if_false, List.cons_append, List.nil_append]
  refine ⟨hrun, ?_, ?_⟩
  · obtain ⟨opening, ho, hr⟩ := hrun
    rw [hr]
    rcases ho with ho | ho <;> subst ho <;> simp [writtenMsgs, Effect.written?]
  · obtain ⟨opening, ho, hr⟩ := hrun
    rw [hr]
    rcases ho with ho | ho <;> subst ho <;> simp [Effect.isRead]

/-- C7 at the selector `ghost`, which the daemon does not know. -/
theorem C7_open_failure_diagnostic_then_close_witness :
    writtenMsgs (logsEndpoint ghostSession).trace = [str "No such container: ghost"] ∧
    (∀ e ∈ (logsEndpoint ghostSession).trace, e.isRead = false) :=
  (C7_open_failure_diagnostic_then_close ghostSession (str "ghost")
    (.other (str "No such container: ghost")) (by decide) (by decide)
    (Or.inr ⟨rfl, rfl⟩)).2

/-- C8. When the Log Stream yields the chunks `chunks` and then a read fails with the error
`er`, which is not `EOF` (the failing read may itself carry the bytes `last`, which the
copy loop relays as one more chunk), and the peer accepts every chunk written to it: the
client connection receives exactly the non-empty chunks in the order yielded, then one
message with the text of `er`, then it is closed, and the handler returns. Nothing is
assumed of the write of the diagnostic: the close follows whether or not it succeeds. -/
theorem C8_read_error_diagnostic_then_close (s : Session) (container : GoString)
    (chunks : List Bytes) (last : Bytes) (er : GoError) (unread : List ReadResult)
    (hsel : Values.Get s.query (str "container") = container) (hne : container ≠ [])
    (hcli : s.newClient = none)
    (hlogs : s.containerLogs container =
      .ok (chunks.map (fun d => ⟨d, none⟩) ++ ⟨last, some er⟩ :: unread))
    (her : er ≠ .EOF)
    (hw : ∀ j msg, (nonEmptyChunks (chunks ++ [last]))[j]? = some msg →
      (s.ws j msg).succeeded msg) :
    ∃ pump : List Effect,
      logsEndpoint s =
        { trace := opened container ++ pump ++
            [.wsWrite er.Error (s.ws (nonEmptyChunks (chunks ++ [last])).length er.Error),
              .wsClose],
          returned := true } ∧
      writtenMsgs pump = nonEmptyChunks (chunks ++ [last]) ∧
      (∀ x ∈ pump, x.isRelay) ∧
      writtenMsgs (logsEndpoint s).trace = nonEmptyChunks (chunks ++ [last]) ++ [er.Error] := by
  have hw0 : ∀ j msg, (nonEmptyChunks (chunks ++ [last]))[j]? = some msg →
      (s.ws (0 + j) msg).succeeded msg := by
    intro j msg hj
    simpa using hw j msg hj
  obtain ⟨h1, h2, h3, h4, h5⟩ := ioCopy_relay s.ws last er unread chunks 0 0 hw0
  have hrun := logsEndpoint_streaming s container _ hsel hne hcli hlogs
  rw [h1] at hrun
  simp only [if_true, h2, her, if_false, h3, Nat.zero_add] at hrun
  refine ⟨_, hrun, h4, h5, ?_⟩
  rw [hrun]
  simp only [writtenMsgs, opened, List.cons_append, List.nil_append, List.filterMap_cons,
    List.filterMap_append, Effect.written?, List.filterMap_nil]
  rw [show List.filterMap Effect.written? _ = _ from h4]

/-- C8 at a stream that breaks after two chunks, with a peer on which the write of the
diagnostic fails: the connection is closed all the same. -/
theorem C8_read_error_diagnostic_then_close_witness :
    ∃ pump : List Effect,
      logsEndpoint brokenStreamSession =
        { trace := opened (str "web") ++ pump ++
            [.wsWrite (str "boom") ⟨0, some (.other (str "broken pipe"))⟩, .wsClose],
          returned := true } ∧
      writtenMsgs pump = [[97, 98], [99]] ∧
      (∀ x ∈ pump, x.isRelay) ∧
      writtenMsgs (logsEndpoint brokenStreamSession).trace = [[97, 98], [99], str "boom"] :=
  C8_read_error_diagnostic_then_close brokenStreamSession (str "web")
    [[97, 98], [], [99]] [] (.other (str "boom")) [⟨[100], none⟩]
    (by decide) (by decide) rfl rfl (by decide)
    (fun j msg h =>
      match j, h with
      | 0, h => by cases h; decide
      | 1, h => by cases h; decide
      | _ + 2, h => by cases h)

/-! ## The handler `containersEndpoint` -/

/-- When every container has a first name of at least one byte, the loop appends the
tails of these names, in order, to the slice it started with. -/
theorem extractNames_ok (containers : List Container) (ids : List GoString)
    (h : List.Forall₂ FirstNameTail containers ids) :
    ∀ acc : StringSlice, extractNames containers acc =
      .ok (if ids = [] then acc else some (acc.getD [] ++ ids)) := by
  induction h with
  | nil => intro acc; simp [extractNames]
  | @cons c id containers ids hc _ ih =>
    intro acc
    obtain ⟨b, hb⟩ := hc
    cases hN : c.Names with
    | nil => simp [hN] at hb
    | cons name more =>
      simp only [hN, List.head?_cons, Option.some.injEq] at hb
      subst hb
      simp only [extractNames, hN, ih, goAppend]
      by_cases hids : ids = []
      · simp [hids]
      · simp [hids]

/-- A container without a first name of at least one byte makes the loop panic. -/
theorem extractNames_panics (containers : List Container)
    (h : ∃ c ∈ containers, Unnamed c) :
    ∀ acc : StringSlice, ∃ p, extractNames containers acc = .error p := by
  induction containers with
  | nil => obtain ⟨c, hc, -⟩ := h; cases hc
  | cons c rest ih =>
    intro acc
    cases hN : c.Names with
    | nil => exact ⟨.indexOutOfRange 0 0, by simp [extractNames, hN]⟩
    | cons name more =>
      cases name with
      | nil => exact ⟨.sliceBoundsOutOfRange 1 0, by simp [extractNames, hN]⟩
      | cons b tail =>
        simp only [extractNames, hN]
        apply ih
        obtain ⟨c', hc', hu⟩ := h
        simp only [List.mem_cons] at hc'
        rcases hc' with hc' | hc'
        · subst hc'
          simp [Unnamed, hN] at hu
        · exact ⟨c', hc', hu⟩

/-- Containers that all have a first name of at least one byte have identifiers. -/
theorem firstNameTails_exist (containers : List Container)
    (h : ∀ c ∈ containers, ¬ Unnamed c) :
    ∃ ids, List.Forall₂ FirstNameTail containers ids := by
  induction containers with
  | nil => exact ⟨[], List.Forall₂.nil⟩
  | cons c rest ih =>
    obtain ⟨ids, hids⟩ := ih (fun c' hc' => h c' (List.mem_cons_of_mem _ hc'))
    have hc := h c (List.mem_cons_self _ _)
    cases hN : c.Names with
    | nil => exact absurd (Or.inl hN) hc
    | cons name more =>
      cases name with
      | nil => exact absurd (Or.inr (by simp [hN])) hc
      | cons b tail => exact ⟨tail :: ids, List.Forall₂.cons ⟨b, by simp [hN]⟩ hids⟩

theorem firstNameTail_of_slash (containers : List Container) :
    ∀ names : List GoString,
      containers.map (fun c => c.Names.head?) = names.map (fun n => some (str "/" ++ n)) →
      List.Forall₂ FirstNameTail containers names := by
  induction containers with
  | nil =>
    intro names h
    cases names with
    | nil => exact List.Forall₂.nil
    | cons n names => simp at h
  | cons c rest ih =>
    intro names h
    cases names with
    | nil => simp at h
    | cons n names =>
      simp only [List.map_cons, List.cons.injEq] at h
      exact List.Forall₂.cons ⟨47, h.1⟩ (ih names h.2)

/-- C5. When the runtime reports a non-empty list of containers whose first names are a
slash followed by `n_1`, ..., `n_k`, `containersEndpoint` answers with status 200, the
header `Content-Type: application/json`, and a body that is the JSON array of the strings
`n_1`, ..., `n_k` in the reported order, each without its leading slash, ended by the
newline the encoder appends. `encString` is the JSON encoding of one string. -/
theorem C5_names_listed_in_runtime_order (encString : GoString → Bytes) (d : Docker)
    (containers : List Container) (names : List GoString)
    (hcli : d.newClient = none) (hlist : d.containerList = .ok containers)
    (hne : containers ≠ [])
    (hnames : containers.map (fun c => c.Names.head?) =
      names.map (fun n => some (str "/" ++ n))) :
    containersEndpoint encString d ResponseWriter.new =
      .response
        { header := [("Content-Type", "application/json")], status := some 200,
          body := str "[" ++ List.intercalate (str ",") (names.map encString) ++ str "]" ++
            str "\n" } := by
  have hids := extractNames_ok containers names (firstNameTail_of_slash containers names hnames)
    none
  have hnn : names ≠ [] := by
    intro h
    subst h
    simp only [List.map_nil, List.map_eq_nil_iff] at hnames
    exact hne hnames
  simp only [hnn, if_false, Option.getD_none, List.nil_append] at hids
  simp [containersEndpoint, hcli, hlist, hids, jsonEncode, jsonStringSlice,
    ResponseWriter.write, ResponseWriter.writeHeader, ResponseWriter.setHeader,
    ResponseWriter.new]

/-- C5 at the containers `/web` and `/db`: the body is `["web","db"]` and a newline. -/
theorem C5_names_listed_in_runtime_order_witness :
    containersEndpoint quotePlain
        { newClient := none, containerList := .ok [⟨[str "/web"]⟩, ⟨[str "/db"]⟩] }
        ResponseWriter.new =
      .response
        { header := [("Content-Type", "application/json")], status := some 200,
          body := str "[\"web\",\"db\"]\n" } :=
  (C5_names_listed_in_runtime_order quotePlain
    { newClient := none, containerList := .ok [⟨[str "/web"]⟩, ⟨[str "/db"]⟩] }
    [⟨[str "/web"]⟩, ⟨[str "/db"]⟩] [str "web", str "db"] rfl rfl (by decide)
    (by decide)).trans (by decide)

/-- C6, at the failing input. When the runtime reports no container, the slice of names
is still the nil slice it was declared as, and the body `containersEndpoint` writes is the
JSON text `null` with a newline, not the empty array. -/
theorem C6_empty_list_body_is_null (encString : GoString → Bytes) :
    containersEndpoint encString { newClient := none, containerList := .ok [] }
        ResponseWriter.new =
      .response
        { header := [("Content-Type", "application/json")], status := some 200,
          body := str "null\n" } ∧
    jsonStringSlice encString (some []) = str "[]" ∧
    str "null\n" ≠ str "[]\n" :=
  ⟨rfl, rfl, by decide⟩

/-- C9. When the runtime cannot be reached, because building the runtime client fails or
because the list query returns an error, `containersEndpoint` answers with status 500, a
plain-text content type, and a body that is the text of the error and a newline: no header
of the response carries `application/json`, and no JSON is written. -/
theorem C9_runtime_unreachable (encString : GoString → Bytes) (d : Docker) (err : GoError)
    (h : d.newClient = some err ∨ (d.newClient = none ∧ d.containerList = .error err)) :
    ∃ w, containersEndpoint encString d ResponseWriter.new = .response w ∧
      w.status = some 500 ∧
      w.getHeader "Content-Type" = some "text/plain; charset=utf-8" ∧
      (∀ kv ∈ w.header, kv.2 ≠ "application/json") ∧
      w.body = err.Error ++ str "\n" := by
  have hrun : containersEndpoint encString d ResponseWriter.new =
      .response (httpError ResponseWriter.new err.Error 500) := by
    rcases h with h | ⟨h1, h2⟩
    · simp only [containersEndpoint, h]
    · simp only [containersEndpoint, h1, h2]
  refine ⟨_, hrun, ?_, ?_, ?_, ?_⟩ <;>
    simp [httpError, ResponseWriter.write, ResponseWriter.writeHeader,
      ResponseWriter.setHeader, ResponseWriter.new, ResponseWriter.getHeader, List.lookup]

/-- C9 at a daemon whose socket cannot be dialled. -/
theorem C9_runtime_unreachable_witness :
    ∃ w, containersEndpoint quotePlain
        { newClient := none,
          containerList := .error (.other (str "Cannot connect to the Docker daemon")) }
        ResponseWriter.new = .response w ∧
      w.status = some 500 ∧
      w.getHeader "Content-Type" = some "text/plain; charset=utf-8" ∧
      (∀ kv ∈ w.header, kv.2 ≠ "application/json") ∧
      w.body = str "Cannot connect to the Docker daemon\n" :=
  C9_runtime_unreachable quotePlain
    { newClient := none,
      containerList := .error (.other (str "Cannot connect to the Docker daemon")) }
    (.other (str "Cannot connect to the Docker daemon")) (Or.inr ⟨rfl, rfl⟩)

/-- C10. The loop that extracts the names panics with an out-of-range index exactly when
some reported container has no name or an empty first name. On every other list it
succeeds and yields one identifier for each container, in order, and each container's
first name is one byte, whatever it is, followed by its identifier. -/
theorem C10_extraction_panics_iff_unnamed (containers : List Container) :
    ((∃ p, extractNames containers none = .error p) ↔
      ∃ c ∈ containers, c.Names = [] ∨ c.Names.head? = some []) ∧
    ((¬ ∃ c ∈ containers, c.Names = [] ∨ c.Names.head? = some []) →
      ∃ ids : List GoString,
        extractNames containers none = .ok (if containers = [] then none else some ids) ∧
        ids.length = containers.length ∧
        List.Forall₂ (fun c id => ∃ b, c.Names.head? = some (b :: id)) containers ids) := by
  have hgood : (¬ ∃ c ∈ containers, c.Names = [] ∨ c.Names.head? = some []) →
      ∃ ids : List GoString,
        extractNames containers none = .ok (if containers = [] then none else some ids) ∧
        ids.length = containers.length ∧
        List.Forall₂ (fun c id => ∃ b, c.Names.head? = some (b :: id)) containers ids := by
    intro hno
    obtain ⟨ids, hids⟩ := firstNameTails_exist containers
      (fun c hc hu => hno ⟨c, hc, hu⟩)
    refine ⟨ids, ?_, hids.length_eq.symm, hids⟩
    rw [extractNames_ok containers ids hids none]
    have hiff : ids = [] ↔ containers = [] := by
      constructor
      · intro h; subst h; cases hids; rfl
      · intro h; subst h; cases hids; rfl
    by_cases hc : containers = []
    · simp [hc, hiff.mpr hc]
    · simp [hc, mt hiff.mp hc]
  refine ⟨⟨?_, fun h => extractNames_panics containers h none⟩, hgood⟩
  rintro ⟨p, hp⟩
  by_contra hno
  obtain ⟨ids, hok, -, -⟩ := hgood hno
  rw [hok] at hp
  cases hp

/-- C10 at a list whose second container has an empty first name, and at the list of
`/web` and `db`, whose identifiers are `web` and `b`. -/
theorem C10_extraction_panics_iff_unnamed_witness :
    extractNames [⟨[str "/web"]⟩, ⟨[[]]⟩] none = .error (.sliceBoundsOutOfRange 1 0) ∧
    extractNames [⟨[str "/web"]⟩, ⟨[]⟩] none = .error (.indexOutOfRange 0 0) ∧
    extractNames [⟨[str "/web"]⟩, ⟨[str "db", str "/alias"]⟩] none =
      .ok (some [str "web", str "b"]) ∧
    ((∃ p, extractNames [⟨[str "/web"]⟩, ⟨[[]]⟩] none = .error p) ↔
      ∃ c ∈ [(⟨[str "/web"]⟩ : Container), ⟨[[]]⟩], c.Names = [] ∨ c.Names.head? = some []) :=
  ⟨rfl, rfl, rfl,
    (C10_extraction_panics_iff_unnamed [⟨[str "/web"]⟩, ⟨[[]]⟩]).1⟩

end LogViewer
